import Mathlib

/-!
Verification of the core optimisation routines of `sensitivity_torch`
(`sensitivity_torch/extras/optimization.py`): the multi-point geometric
line search `_linesearch`, the Cholesky regularisation escalation loop
`_positive_factorization_cholesky`, the eigenvalue-based initial-shift
wrapper `_positive_factorization_lobpcg`, and the Newton-step driver
`minimize_sqp`.

Modelling conventions.
Float scalars are idealised as exact rationals.  A float that may be NaN
is modelled as `Option ℚ` with `none` standing for NaN.  Loss values
flowing through the line search and the driver live in `WithTop ℚ`,
where `⊤` stands for `+inf` (the value the code substitutes for NaN
candidate losses).  Torch library primitives that the repository merely
calls (`10.0 ** _`, `torch.norm`, `torch.linalg.eigvals`, `torch.lobpcg`,
`torch.linalg.cholesky`, `torch.cholesky_solve`) are parameters of the
embedding; the repository logic around them is translated literally.
Batched tensors of shape `(M, n)` and `(M, n, n)` are functions out of
`Fin M`.
-/

/-- `torch.linspace a b n`: `n` points from `a` to `b` inclusive, with
step `(b - a) / (n - 1)`.  (Only used by the code with `2 ≤ n`.) -/
def linspace (a b : ℚ) (n : ℕ) : List ℚ :=
  (List.range n).map (fun i => a + i * (b - a) / (n - 1))

/-- `torch.where(torch.isnan y, inf, y)` on one entry: a NaN loss
(`none`) becomes `+inf` (`⊤`), a finite loss is kept. -/
def sanitizeLoss (v : Option ℚ) : WithTop ℚ :=
  match v with
  | none => ⊤
  | some q => (q : WithTop ℚ)

/-- Minimum of a list of extended losses (`⊤` for the empty list). -/
def listMin (l : List (WithTop ℚ)) : WithTop ℚ :=
  l.foldr min ⊤

/-- Index of the first occurrence of the minimum of a list, i.e. the
behaviour of `torch.argmin` along a row (ties broken by the smallest
index). -/
def firstMinIdx : List (WithTop ℚ) → ℕ
  | [] => 0
  | a :: l => if a ≤ listMin l then 0 else firstMinIdx l + 1

/-- The candidate step multipliers of `_linesearch`:
`10.0 ** torch.linspace(-1, 1, ls_pts_nb)` when `ls_pts_nb >= 2`, and
the single full Newton step `[1.0]` otherwise.  `rpow10` is the torch
primitive `fun e => 10.0 ** e`, a parameter of the embedding; the code
passes it the exponents `linspace (-1) 1 ls_pts_nb`. -/
def lsBets (rpow10 : ℚ → ℚ) (ls_pts_nb : ℕ) : List ℚ :=
  if 2 ≤ ls_pts_nb then (linspace (-1) 1 ls_pts_nb).map rpow10 else [1]

/-- The full multiplier list used for selection: unless a step is
forced, a zero multiplier is prepended (`torch.cat([zeros(1), bets])`). -/
def lsBetsAll (rpow10 : ℚ → ℚ) (ls_pts_nb : ℕ) (force_step : Bool) : List ℚ :=
  if force_step then lsBets rpow10 ls_pts_nb else 0 :: lsBets rpow10 ls_pts_nb

/-- Row `i` of the candidate-loss matrix `y` of `_linesearch`: the
sanitised losses `f_fn (x + bet * d)` for each candidate multiplier,
with the incumbent loss `f i` prepended unless a step is forced. -/
def lsY {M k : ℕ} (rpow10 : ℚ → ℚ) (f : Fin M → WithTop ℚ)
    (x d : Fin M → Fin k → ℚ)
    (f_fn : (Fin M → Fin k → ℚ) → Fin M → Option ℚ)
    (ls_pts_nb : ℕ) (force_step : Bool) (i : Fin M) : List (WithTop ℚ) :=
  let y0 := (lsBets rpow10 ls_pts_nb).map
    (fun bet => sanitizeLoss (f_fn (fun m j => x m j + bet * d m j) i))
  if force_step then y0 else f i :: y0

/-- The extra outputs of `_linesearch` (the `data` dictionary): the
per-row norm of the direction and the per-row selected loss. -/
structure LSData (M : ℕ) where
  d_norm : Fin M → ℚ
  f_best : Fin M → WithTop ℚ

/-- `_linesearch f x d f_fn` from the source: evaluate the objective at
`x + bet * d` for every candidate multiplier `bet`, replace NaN losses
by `+inf`, prepend the zero-step candidate with the incumbent loss
unless `force_step`, and select per row the multiplier of smallest loss
(first index on ties, as `torch.argmin`).  `vnorm` is the torch
primitive computing the norm of one row over the non-batch
dimensions. -/
def linesearch {M k : ℕ} (rpow10 : ℚ → ℚ) (vnorm : (Fin k → ℚ) → ℚ)
    (f : Fin M → WithTop ℚ) (x d : Fin M → Fin k → ℚ)
    (f_fn : (Fin M → Fin k → ℚ) → Fin M → Option ℚ)
    (ls_pts_nb : ℕ) (force_step : Bool) : (Fin M → ℚ) × LSData M :=
  (fun i => (lsBetsAll rpow10 ls_pts_nb force_step).getD
      (firstMinIdx (lsY rpow10 f x d f_fn ls_pts_nb force_step i)) 0,
   ⟨fun i => vnorm (d i),
    fun i => (lsY rpow10 f x d f_fn ls_pts_nb force_step i).getD
      (firstMinIdx (lsY rpow10 f x d f_fn ls_pts_nb force_step i)) ⊤⟩)

/-- Concrete instance of the torch primitive `fun e => 10.0 ** e` at the
five default exponents, with the two irrational values rounded to the
three-digit decimals used by the specification (`0.316`, `3.16`). -/
def rpow10c : ℚ → ℚ := fun e =>
  if e = -1 then 1/10 else if e = -1/2 then 79/250 else if e = 0 then 1
  else if e = 1/2 then 79/25 else if e = 1 then 10 else 0

/-- Concrete instance of the torch row-norm primitive.  Our concrete
scenarios only use rows of width one, where the Euclidean norm is the
absolute value of the single coordinate. -/
def vnormAbs {k : ℕ} : (Fin k → ℚ) → ℚ := fun v => ∑ j, |v j|

/-- Scenario data for claim C4: current point `x = 0`. -/
def xScen : Fin 1 → Fin 1 → ℚ := fun _ _ => 0

/-- Scenario data for claim C4: direction `d = 1`, so that the point
probed at multiplier `bet` is `bet` itself. -/
def dScen : Fin 1 → Fin 1 → ℚ := fun _ _ => 1

/-- Scenario objective for claim C4: losses `[5, 3, 1, 4, 9]` at the
five default candidate multipliers. -/
def fScen : (Fin 1 → Fin 1 → ℚ) → Fin 1 → Option ℚ := fun p _ =>
  if p 0 0 = 1/10 then some 5 else if p 0 0 = 79/250 then some 3
  else if p 0 0 = 1 then some 1 else if p 0 0 = 79/25 then some 4
  else if p 0 0 = 10 then some 9 else some 0

/-- The fatal and control-flow outcomes of the modelled routines:
`inputError` is the `ValueError` for more than one optimisation
variable, `indexError` the `args[0]` / `[0]` failure on empty data,
`gradNaN` and `hessNaN` the two `RuntimeError`s for invalid derivative
values, `regExhausted` the `RuntimeError("Numerical problems")` of the
escalation loop, `reshapeError` the failing
`H.reshape((H.shape[-1], H.shape[-1]))` on a multi-row batch, and
`emptyReduction` the failing `torch.min` over an empty spectrum. -/
inductive SqpErr where
  | inputError
  | indexError
  | gradNaN
  | hessNaN
  | regExhausted
  | reshapeError
  | emptyReduction
  deriving DecidableEq

/-- `H_reg = torch.clone(H); H_reg.diagonal(dim1=-2, dim2=-1)[:] += reg`:
add `reg` to the diagonal of every row of the batch. -/
def addDiag {M n : ℕ} (H : Fin M → Matrix (Fin n) (Fin n) ℚ) (reg : ℚ) :
    Fin M → Matrix (Fin n) (Fin n) ℚ :=
  fun i a b => if a = b then H i a b + reg else H i a b

/-- The escalation loop of `_positive_factorization_cholesky`: attempt a
Cholesky factorisation of `H + reg * I`; on failure multiply `reg` by 5,
increment the attempt counter, and abort with the fatal
`RuntimeError("Numerical problems")` once the escalated `reg` reaches
`0.99e7`; otherwise retry.  The torch primitive is the parameter `chol`,
returning `none` when `torch.linalg.cholesky` raises or when the factor
contains NaN values (the two cases the `try`/`except` of the source
treats identically).  The loop is indexed by `fuel`; `none` means the
loop has not finished within `fuel` attempts, so divergence of the
source loop is `= none` for every fuel. -/
def positive_factorization_cholesky {M n : ℕ} {Φ : Type}
    (chol : (Fin M → Matrix (Fin n) (Fin n) ℚ) → Option Φ)
    (H : Fin M → Matrix (Fin n) (Fin n) ℚ) :
    ℕ → ℚ → ℕ → Option (Except SqpErr (Φ × ℕ × ℚ))
  | 0, _, _ => none
  | fuel + 1, reg, reg_it =>
    match chol (addDiag H reg) with
    | some F => some (.ok (F, reg_it, reg))
    | none =>
      if 9900000 ≤ 5 * reg then some (.error .regExhausted)
      else positive_factorization_cholesky chol H fuel (5 * reg) (reg_it + 1)

/-- Exact-arithmetic model of batched `torch.linalg.cholesky` on `1 x 1`
matrices: the factorisation succeeds exactly when every row entry is
positive (the factor would be its square root, which no claim ever
inspects, so the matrix batch itself is returned as the factor
token). -/
def chol1 {M : ℕ} (H : Fin M → Matrix (Fin 1) (Fin 1) ℚ) :
    Option (Fin M → Matrix (Fin 1) (Fin 1) ℚ) :=
  if ∀ i, 0 < H i 0 0 then some H else none

/-- A Hessian batch that admits no positive-definite shift along the
stuck trajectory `reg = 0`: the single `1 x 1` matrix `[[-1]]`. -/
def Hneg : Fin 1 → Matrix (Fin 1) (Fin 1) ℚ := fun _ _ _ => -1

/-- A benign Hessian batch: the single `1 x 1` matrix `[[1]]`. -/
def Hpos : Fin 1 → Matrix (Fin 1) (Fin 1) ℚ := fun _ _ _ => 1

/-- Divergence of the escalation loop on the concrete input
`H = [[-1]]`, initial shift `reg = 0`: within no attempt budget does
the loop either succeed or abort, i.e. the source loop runs forever on
this input. -/
def escalStuckAtZero : Prop :=
  ∀ (fuel reg_it : ℕ),
    positive_factorization_cholesky chol1 Hneg fuel 0 reg_it = none

/-- `_positive_factorization_lobpcg H reg0` from the source.  When the
matrix dimension is below 3 the code reshapes the batched `(M, n, n)`
Hessian to a single `(n, n)` matrix and takes the minimum real part of
its exact eigenvalues; this reshape is only size-consistent for a
single-row batch and raises a `RuntimeError` otherwise, and for `n = 0`
the subsequent `torch.min` over an empty spectrum raises.  At dimension
3 and above it estimates the lowest eigenvalue with
`torch.lobpcg(H, k=1, largest=False, niter=100, tol=1e-3)` and keeps the
first row of the estimate (`reg.reshape(-1)[0]`, an index error on an
empty batch).  The initial shift handed to the escalation loop is
`max (max (-2 * reg) 0) reg0`.  `eigMinReal` models
`min(torch.linalg.eigvals(.).real)` and `lobpcgMin` the per-row
`torch.lobpcg` lowest-eigenvalue estimate; both are parameters of the
embedding. -/
def positive_factorization_lobpcg {M n : ℕ} {Φ : Type}
    (eigMinReal : Matrix (Fin n) (Fin n) ℚ → ℚ)
    (lobpcgMin : ℕ → ℚ → (Fin M → Matrix (Fin n) (Fin n) ℚ) → Fin M → ℚ)
    (chol : (Fin M → Matrix (Fin n) (Fin n) ℚ) → Option Φ)
    (H : Fin M → Matrix (Fin n) (Fin n) ℚ) (reg0 : ℚ) (fuel : ℕ) :
    Option (Except SqpErr (Φ × ℕ × ℚ)) :=
  if n < 3 then
    if n = 0 then some (.error .emptyReduction)
    else if hM : M = 1 then
      let reg := eigMinReal (H ⟨0, by omega⟩)
      positive_factorization_cholesky chol H fuel (max (max (-2 * reg) 0) reg0) 0
    else some (.error .reshapeError)
  else
    if hM : M = 0 then some (.error .indexError)
    else
      let reg := lobpcgMin 100 (1/1000) H ⟨0, by omega⟩
      positive_factorization_cholesky chol H fuel (max (max (-2 * reg) 0) reg0) 0

/-- Exact minimum eigenvalue of a `1 x 1` matrix: its sole entry (models
`min(torch.linalg.eigvals(A).real)` at dimension one). -/
def eig1 : Matrix (Fin 1) (Fin 1) ℚ → ℚ := fun A => A 0 0

/-- A trivial lobpcg backend instance (never consulted at dimension
below 3). -/
def lobZero {M n : ℕ} : ℕ → ℚ → (Fin M → Matrix (Fin n) (Fin n) ℚ) → Fin M → ℚ :=
  fun _ _ _ _ => 0

/-- A batched pair of benign `1 x 1` Hessians `[[2]], [[2]]`: the
failing input of claim C2. -/
def Hbatch2 : Fin 2 → Matrix (Fin 1) (Fin 1) ℚ := fun _ _ _ => 2

/-- The same benign Hessian as a single-row batch. -/
def H1two : Fin 1 → Matrix (Fin 1) (Fin 1) ℚ := fun _ _ _ => 2

/-- `torch.any(torch.isnan(g))` on a batched gradient whose entries may
be NaN. -/
def vecHasNaN {M k : ℕ} (g : Fin M → Fin k → Option ℚ) : Prop :=
  ∃ i j, g i j = none

instance {M k : ℕ} (g : Fin M → Fin k → Option ℚ) : Decidable (vecHasNaN g) :=
  decidable_of_iff (∃ i j, g i j = none) Iff.rfl

/-- `torch.any(torch.isnan(H))` on a batched Hessian whose entries may
be NaN. -/
def matHasNaN {M k : ℕ} (H : Fin M → Matrix (Fin k) (Fin k) (Option ℚ)) : Prop :=
  ∃ i a b, H i a b = none

instance {M k : ℕ} (H : Fin M → Matrix (Fin k) (Fin k) (Option ℚ)) :
    Decidable (matHasNaN H) :=
  decidable_of_iff (∃ i a b, H i a b = none) Iff.rfl

/-- Strip the NaN marker from an entry; the driver only does this after
its NaN checks have passed, so the default is never consulted. -/
def deNaN (v : Option ℚ) : ℚ := v.getD 0

/-- The caller-supplied objective, gradient and Hessian evaluators of
`minimize_sqp`, already in the `(M, x_size)` layout the driver reshapes
to.  Gradient and Hessian entries may be NaN. -/
structure SqpFns (M k : ℕ) where
  f_fn : (Fin M → Fin k → ℚ) → Fin M → Option ℚ
  g_fn : (Fin M → Fin k → ℚ) → Fin M → Fin k → Option ℚ
  h_fn : (Fin M → Fin k → ℚ) → Fin M → Matrix (Fin k) (Fin k) (Option ℚ)

/-- The torch primitives `minimize_sqp` and its helpers call, bundled as
parameters of the embedding: `rpow10` is `10.0 ** _`, `vnorm` the
per-row norm over non-batch dimensions, `eigMinReal` and `lobpcgMin`
the two eigenvalue estimators, `chol` the batched Cholesky
factorisation (`none` on failure or NaN factor), and `chol_solve` the
batched `torch.cholesky_solve` applied to a factor token and a
right-hand side. -/
structure TorchKit (M k : ℕ) (Φ : Type) where
  rpow10 : ℚ → ℚ
  vnorm : (Fin k → ℚ) → ℚ
  eigMinReal : Matrix (Fin k) (Fin k) ℚ → ℚ
  lobpcgMin : ℕ → ℚ → (Fin M → Matrix (Fin k) (Fin k) ℚ) → Fin M → ℚ
  chol : (Fin M → Matrix (Fin k) (Fin k) ℚ) → Option Φ
  chol_solve : Φ → (Fin M → Fin k → ℚ) → Fin M → Fin k → ℚ

/-- The loop state of `minimize_sqp`: iterate, running best point and
best loss, and the loss and iterate histories.  The histories are
stored newest-first (the python lists append at the end and read
`[-1]`); `minimize_sqp` reverses `x_hist` on output.  The initial loss
`f_fn(x0)` is entered unsanitised by the code; the model conflates an
initial NaN loss with `+inf` (no claim exercises a NaN incumbent). -/
@[ext]
structure SqpState (M k : ℕ) where
  x : Fin M → Fin k → ℚ
  x_best : Fin M → Fin k → ℚ
  f_best : Fin M → WithTop ℚ
  f_hist : List (Fin M → WithTop ℚ)
  x_hist : List (Fin M → Fin k → ℚ)

/-- `x_best, f_best = x, atleast_1d(f_fn(x)); f_hist = [f_best];
x_hist = [x]`. -/
def sqpInit {M k : ℕ} (fns : SqpFns M k) (x : Fin M → Fin k → ℚ) :
    SqpState M k :=
  ⟨x, x, fun i => sanitizeLoss (fns.f_fn x i),
   [fun i => sanitizeLoss (fns.f_fn x i)], [x]⟩

/-- The derivative-and-direction phase of one `minimize_sqp` iteration:
evaluate `g` and `H` at the iterate, abort fatally if either contains a
NaN (`RuntimeError("Gradient is NaN")` first, then
`RuntimeError("Hessian is NaN")`), obtain a factorisation from
`_positive_factorization_lobpcg`, and solve
`d = cholesky_solve(-g, F)`.  Returns the direction and the escalation
count. -/
def sqpDir {M k : ℕ} {Φ : Type} (kit : TorchKit M k Φ) (fns : SqpFns M k)
    (reg0 : ℚ) (fuel : ℕ) (s : SqpState M k) :
    Option (Except SqpErr ((Fin M → Fin k → ℚ) × ℕ)) :=
  if vecHasNaN (fns.g_fn s.x) then some (.error .gradNaN)
  else if matHasNaN (fns.h_fn s.x) then some (.error .hessNaN)
  else
    match positive_factorization_lobpcg kit.eigMinReal kit.lobpcgMin kit.chol
        (fun i a b => deNaN (fns.h_fn s.x i a b)) reg0 fuel with
    | none => none
    | some (.error e) => some (.error e)
    | some (.ok (F, reg_it, _)) =>
      some (.ok (kit.chol_solve F (fun i j => -(deNaN (fns.g_fn s.x i j))), reg_it))

/-- The running-best update of `minimize_sqp`: the batched branch keeps,
independently per row, whichever of the line-search loss and the
previous best is lower; the unbatched branch (reached by the code only
with `M = 1`) decides on row 0 and assigns whole tensors. -/
def bestUpdate {M k : ℕ} (batched : Bool) (x_new x_best : Fin M → Fin k → ℚ)
    (f_best ls_best : Fin M → WithTop ℚ) :
    (Fin M → Fin k → ℚ) × (Fin M → WithTop ℚ) :=
  if batched then
    (fun i => if ls_best i < f_best i then x_new i else x_best i,
     fun i => if ls_best i < f_best i then ls_best i else f_best i)
  else
    if h : 0 < M then
      if ls_best ⟨0, h⟩ < f_best ⟨0, h⟩ then (x_new, ls_best)
      else (x_best, f_best)
    else (x_best, f_best)

/-- The state-update phase of one `minimize_sqp` iteration, after the
direction `d` has been obtained: run the line search from the last
recorded loss, move `x` by the selected per-row multiplier, push both
histories, update the running best, and compute the convergence
indicator `imprv = torch.mean(bet * d_norm)` (a single scalar also in
batched mode). -/
def sqpStepCore {M k : ℕ} {Φ : Type} (kit : TorchKit M k Φ)
    (fns : SqpFns M k) (ls_pts_nb : ℕ) (force_step batched : Bool)
    (s : SqpState M k) (d : Fin M → Fin k → ℚ) : SqpState M k × ℚ :=
  let f := s.f_hist.headD (fun _ => ⊤)
  let bl := linesearch kit.rpow10 kit.vnorm f s.x d fns.f_fn ls_pts_nb force_step
  let xN : Fin M → Fin k → ℚ := fun i j => s.x i j + bl.1 i * d i j
  let imprv : ℚ := (∑ i, bl.1 i * bl.2.d_norm i) / (M : ℚ)
  let bu := bestUpdate batched xN s.x_best s.f_best bl.2.f_best
  (⟨xN, bu.1, bu.2, bl.2.f_best :: s.f_hist, xN :: s.x_hist⟩, imprv)

/-- One full iteration of the `minimize_sqp` loop body. -/
def sqpStep {M k : ℕ} {Φ : Type} (kit : TorchKit M k Φ) (fns : SqpFns M k)
    (reg0 : ℚ) (ls_pts_nb : ℕ) (force_step batched : Bool) (fuel : ℕ)
    (s : SqpState M k) : Option (Except SqpErr (SqpState M k × ℚ)) :=
  match sqpDir kit fns reg0 fuel s with
  | none => none
  | some (.error e) => some (.error e)
  | some (.ok (d, _)) =>
    some (.ok (sqpStepCore kit fns ls_pts_nb force_step batched s d))

/-- `for it in range(max_it): <body>; if imprv < 1e-9: break`, counted
by the remaining iteration budget. -/
def sqpLoop {M k : ℕ} {Φ : Type} (kit : TorchKit M k Φ) (fns : SqpFns M k)
    (reg0 : ℚ) (ls_pts_nb : ℕ) (force_step batched : Bool) (fuel : ℕ) :
    ℕ → SqpState M k → Option (Except SqpErr (SqpState M k))
  | 0, s => some (.ok s)
  | itr + 1, s =>
    match sqpStep kit fns reg0 ls_pts_nb force_step batched fuel s with
    | none => none
    | some (.error e) => some (.error e)
    | some (.ok (sN, imprv)) =>
      if imprv < 1/10^9 then some (.ok sN)
      else sqpLoop kit fns reg0 ls_pts_nb force_step batched fuel itr sN

/-- `minimize_sqp` from the source: reject more than one optimisation
variable with a `ValueError` before anything else runs (`args[0]` on an
empty argument list is an index error), initialise the state from the
starting point, run the iteration loop, and return the tracked best
point — paired with `x_hist + [x_best]` when `full_output` is set.
`fuel` bounds the regularisation escalation only; `none` means that
inner loop never finished. -/
def minimize_sqp {M k : ℕ} {Φ : Type} (kit : TorchKit M k Φ)
    (fns : SqpFns M k) (args : List (Fin M → Fin k → ℚ)) (reg0 : ℚ)
    (max_it ls_pts_nb : ℕ) (force_step batched full_output : Bool)
    (fuel : ℕ) :
    Option (Except SqpErr
      ((Fin M → Fin k → ℚ) × Option (List (Fin M → Fin k → ℚ)))) :=
  if 1 < args.length then some (.error .inputError)
  else
    match args with
    | [] => some (.error .indexError)
    | x :: _ =>
      match sqpLoop kit fns reg0 ls_pts_nb force_step batched fuel max_it
          (sqpInit fns x) with
      | none => none
      | some (.error e) => some (.error e)
      | some (.ok s) =>
        some (.ok (s.x_best,
          if full_output then some (s.x_hist.reverse ++ [s.x_best]) else none))

/-- The best-point invariant of the driver state: the histories have
equal length and, for every row, the running best point is one of the
recorded iterate snapshots, its recorded loss is the loss-history entry
of the same age, and that loss attains the minimum of all recorded
losses for the row. -/
def SqpInv {M k : ℕ} (s : SqpState M k) : Prop :=
  s.f_hist.length = s.x_hist.length ∧
  ∀ i, ∃ t, t < s.x_hist.length
    ∧ s.x_best i = (s.x_hist.getD t (fun _ _ => 0)) i
    ∧ s.f_best i = (s.f_hist.getD t (fun _ => ⊤)) i
    ∧ s.f_best i = listMin (s.f_hist.map (fun fv => fv i))

/-- The zero direction / zero starting point at `M = k = 1`. -/
def x0W : Fin 1 → Fin 1 → ℚ := fun _ _ => 0

/-- The zero direction (same tensor as `x0W`, under its line-search
role). -/
def dzeroW : Fin 1 → Fin 1 → ℚ := fun _ _ => 0

/-- The constantly-zero loss row. -/
def zeroLossW : Fin 1 → WithTop ℚ := fun _ => ((0:ℚ) : WithTop ℚ)

/-- Concrete torch backend kit at `M = k = 1`: the factor token is the
regularised matrix itself (`chol1`), and `chol_solve` solves the `1 x 1`
system exactly by dividing by its entry. -/
def kitC : TorchKit 1 1 (Fin 1 → Matrix (Fin 1) (Fin 1) ℚ) :=
  ⟨rpow10c, vnormAbs, eig1, lobZero, chol1,
   fun F g i j => g i j / F i 0 0⟩

/-- Concrete caller functions at `M = k = 1`: the constant objective
`f = 0` with (its exact) gradient `0` and a benign Hessian `[[2]]`. -/
def fnsC : SqpFns 1 1 :=
  ⟨fun _ _ => some 0, fun _ _ _ => some 0, fun _ _ _ _ => some 2⟩

/-- `fnsC` with the gradient evaluator returning NaN everywhere. -/
def fnsNaN : SqpFns 1 1 :=
  ⟨fun _ _ => some 0, fun _ _ _ => none, fun _ _ _ _ => some 2⟩

/-- The initial driver state for `fnsC` at `x0W`, written out. -/
def s0W : SqpState 1 1 := ⟨x0W, x0W, zeroLossW, [zeroLossW], [x0W]⟩

/-- The driver state after one iteration of `fnsC` from `s0W`: the zero
gradient gives a zero Newton direction, the line search stays put, and
every history gains one entry. -/
def sW1 : SqpState 1 1 :=
  ⟨x0W, x0W, zeroLossW, [zeroLossW, zeroLossW], [x0W, x0W]⟩

theorem listMin_cons (a : WithTop ℚ) (l : List (WithTop ℚ)) :
    listMin (a :: l) = min a (listMin l) := rfl

theorem listMin_le_getD (l : List (WithTop ℚ)) (j : ℕ) :
    listMin l ≤ l.getD j ⊤ := by
  induction l generalizing j with
  | nil => simp [listMin, List.getD]
  | cons a l ih =>
    cases j with
    | zero => simp only [listMin_cons, List.getD_cons_zero]; exact min_le_left a (listMin l)
    | succ j =>
      calc listMin (a :: l) ≤ listMin l := min_le_right _ _
        _ ≤ l.getD j ⊤ := ih j

theorem getD_firstMinIdx (l : List (WithTop ℚ)) :
    l.getD (firstMinIdx l) ⊤ = listMin l := by
  induction l with
  | nil => rfl
  | cons a l ih =>
    by_cases h : a ≤ listMin l
    · simp [firstMinIdx, h, listMin_cons, min_eq_left h]
    · have hidx : firstMinIdx (a :: l) = firstMinIdx l + 1 := by
        simp [firstMinIdx, h]
      rw [hidx, List.getD_cons_succ, ih, listMin_cons,
        min_eq_right (le_of_lt (lt_of_not_le h))]

theorem listMin_lt_getD_of_lt_firstMinIdx (l : List (WithTop ℚ)) (j : ℕ)
    (hj : j < firstMinIdx l) : listMin l < l.getD j ⊤ := by
  induction l generalizing j with
  | nil => simp [firstMinIdx] at hj
  | cons a l ih =>
    by_cases h : a ≤ listMin l
    · simp [firstMinIdx, h] at hj
    · have hmin : listMin (a :: l) = listMin l := by
        simp [listMin_cons, min_eq_right (le_of_lt (lt_of_not_le h))]
      cases j with
      | zero => simpa [hmin] using lt_of_not_le h
      | succ j =>
        have hj' : j < firstMinIdx l := by
          simp only [firstMinIdx, h, if_false] at hj
          omega
        simpa [hmin] using ih j hj'

/-- Claim C3: with `force_step = false`, the loss selected by the line
search for every batch row is at most that row of the incumbent
(pre-step) loss `f`: the post-step loss never exceeds the pre-step
loss. -/
theorem C3_linesearch_no_worsening {M k : ℕ} (rpow10 : ℚ → ℚ)
    (vnorm : (Fin k → ℚ) → ℚ) (f : Fin M → WithTop ℚ)
    (x d : Fin M → Fin k → ℚ)
    (f_fn : (Fin M → Fin k → ℚ) → Fin M → Option ℚ)
    (ls_pts_nb : ℕ) (i : Fin M) :
    (linesearch rpow10 vnorm f x d f_fn ls_pts_nb false).2.f_best i ≤ f i := by
  show (lsY rpow10 f x d f_fn ls_pts_nb false i).getD
      (firstMinIdx (lsY rpow10 f x d f_fn ls_pts_nb false i)) ⊤ ≤ f i
  rw [getD_firstMinIdx]
  have h0 : (lsY rpow10 f x d f_fn ls_pts_nb false i).getD 0 ⊤ = f i := by
    simp [lsY]
  calc listMin (lsY rpow10 f x d f_fn ls_pts_nb false i)
      ≤ (lsY rpow10 f x d f_fn ls_pts_nb false i).getD 0 ⊤ :=
        listMin_le_getD _ 0
    _ = f i := h0

/-- Claim C4: the line search builds its candidate multipliers as
`10 ** linspace (-1) 1 n` (log-spaced across `[0.1, 10]`, at the default
count five the exponents are `[-1, -1/2, 0, 1/2, 1]`), replaces NaN
losses by `+inf`, prepends a zero-multiplier candidate carrying the
incumbent loss when no step is forced, and selects per row the first
candidate of minimal loss; on the spec scenario (losses `[5, 3, 1, 4, 9]`,
incumbent `2`) it selects multiplier `1` with loss `1`. -/
theorem C4_linesearch_structure :
    (∀ (rpow10 : ℚ → ℚ) (n : ℕ),
        lsBets rpow10 (n + 2) = (linspace (-1) 1 (n + 2)).map rpow10)
    ∧ (∀ rpow10 : ℚ → ℚ,
        lsBets rpow10 5 = [rpow10 (-1), rpow10 (-1/2), rpow10 0, rpow10 (1/2), rpow10 1])
    ∧ sanitizeLoss none = ⊤
    ∧ (∀ q : ℚ, sanitizeLoss (some q) = (q : WithTop ℚ))
    ∧ (∀ (M k : ℕ) (rpow10 : ℚ → ℚ) (vnorm : (Fin k → ℚ) → ℚ)
        (f : Fin M → WithTop ℚ) (x d : Fin M → Fin k → ℚ)
        (f_fn : (Fin M → Fin k → ℚ) → Fin M → Option ℚ) (n : ℕ) (i : Fin M),
        lsY rpow10 f x d f_fn n false i
          = f i :: (lsBets rpow10 n).map
              (fun bet => sanitizeLoss (f_fn (fun m j => x m j + bet * d m j) i))
        ∧ (linesearch rpow10 vnorm f x d f_fn n false).2.f_best i
            = listMin (lsY rpow10 f x d f_fn n false i)
        ∧ (linesearch rpow10 vnorm f x d f_fn n false).1 i
            = (0 :: lsBets rpow10 n).getD
                (firstMinIdx (lsY rpow10 f x d f_fn n false i)) 0
        ∧ (∀ j : ℕ, (linesearch rpow10 vnorm f x d f_fn n false).2.f_best i
            ≤ (lsY rpow10 f x d f_fn n false i).getD j ⊤)
        ∧ (∀ j : Fin (firstMinIdx (lsY rpow10 f x d f_fn n false i)),
            (linesearch rpow10 vnorm f x d f_fn n false).2.f_best i
              < (lsY rpow10 f x d f_fn n false i).getD j.1 ⊤))
    ∧ ((linesearch rpow10c vnormAbs (fun _ => ((2:ℚ) : WithTop ℚ))
          xScen dScen fScen 5 false).1 0 = 1
        ∧ (linesearch rpow10c vnormAbs (fun _ => ((2:ℚ) : WithTop ℚ))
          xScen dScen fScen 5 false).2.f_best 0 = ((1:ℚ) : WithTop ℚ)) := by
  refine ⟨?_, ?_, rfl, fun q => rfl, ?_, ?_⟩
  · intro rpow10 n
    simp [lsBets, Nat.le_add_left]
  · intro rpow10
    have h5 : linspace (-1) 1 5 = [-1, -1/2, 0, 1/2, 1] := by
      norm_num [linspace, List.range_succ]
    simp [lsBets, h5]
  · intro M k rpow10 vnorm f x d f_fn n i
    have hfb : (linesearch rpow10 vnorm f x d f_fn n false).2.f_best i
        = listMin (lsY rpow10 f x d f_fn n false i) := getD_firstMinIdx _
    refine ⟨rfl, hfb, rfl, ?_, ?_⟩
    · intro j
      rw [hfb]
      exact listMin_le_getD _ j
    · intro j
      rw [hfb]
      exact listMin_lt_getD_of_lt_firstMinIdx _ j.1 j.2
  · have h5 : linspace (-1) 1 5 = [-1, -1/2, 0, 1/2, 1] := by
      norm_num [linspace, List.range_succ]
    have hb : lsBets rpow10c 5 = [1/10, 79/250, 1, 79/25, 10] := by
      norm_num [lsBets, h5, rpow10c]
    have hy : lsY rpow10c (fun _ => ((2:ℚ) : WithTop ℚ)) xScen dScen fScen 5 false 0
        = [((2:ℚ) : WithTop ℚ), ((5:ℚ) : WithTop ℚ), ((3:ℚ) : WithTop ℚ),
           ((1:ℚ) : WithTop ℚ), ((4:ℚ) : WithTop ℚ), ((9:ℚ) : WithTop ℚ)] := by
      norm_num [lsY, hb, fScen, xScen, dScen, sanitizeLoss]
    have hidx : firstMinIdx [((2:ℚ) : WithTop ℚ), ((5:ℚ) : WithTop ℚ),
        ((3:ℚ) : WithTop ℚ), ((1:ℚ) : WithTop ℚ), ((4:ℚ) : WithTop ℚ),
        ((9:ℚ) : WithTop ℚ)] = 3 := by
      decide
    constructor
    · show (lsBetsAll rpow10c 5 false).getD
        (firstMinIdx (lsY rpow10c (fun _ => ((2:ℚ) : WithTop ℚ))
          xScen dScen fScen 5 false 0)) 0 = 1
      rw [hy, hidx]
      norm_num [lsBetsAll, hb]
    · show (lsY rpow10c (fun _ => ((2:ℚ) : WithTop ℚ))
          xScen dScen fScen 5 false 0).getD
        (firstMinIdx (lsY rpow10c (fun _ => ((2:ℚ) : WithTop ℚ))
          xScen dScen fScen 5 false 0)) ⊤ = ((1:ℚ) : WithTop ℚ)
      rw [hy, hidx]
      rfl

/-- Claim C10: when `ls_pts_nb < 2` (i.e. zero or one) the candidate
multiplier set is the single full Newton step `[1.0]`; with
`force_step = false` the zero-multiplier incumbent is still prepended,
so the search picks the full step exactly when its (sanitised) loss
beats the incumbent, and stays put otherwise. -/
theorem C10_single_candidate :
    (∀ rpow10 : ℚ → ℚ,
        lsBets rpow10 0 = [1] ∧ lsBets rpow10 1 = [1]
        ∧ lsBetsAll rpow10 0 false = [0, 1] ∧ lsBetsAll rpow10 1 false = [0, 1])
    ∧ (∀ (M k : ℕ) (rpow10 : ℚ → ℚ) (vnorm : (Fin k → ℚ) → ℚ)
        (f : Fin M → WithTop ℚ) (x d : Fin M → Fin k → ℚ)
        (f_fn : (Fin M → Fin k → ℚ) → Fin M → Option ℚ) (i : Fin M),
        ((linesearch rpow10 vnorm f x d f_fn 0 false).1 i
          = if sanitizeLoss (f_fn (fun m j => x m j + 1 * d m j) i) < f i
            then 1 else 0)
        ∧ ((linesearch rpow10 vnorm f x d f_fn 1 false).1 i
          = if sanitizeLoss (f_fn (fun m j => x m j + 1 * d m j) i) < f i
            then 1 else 0)) := by
  constructor
  · intro rpow10
    exact ⟨rfl, rfl, rfl, rfl⟩
  · intro M k rpow10 vnorm f x d f_fn i
    have key : ∀ n : ℕ, lsBets rpow10 n = [1] →
        (linesearch rpow10 vnorm f x d f_fn n false).1 i
          = if sanitizeLoss (f_fn (fun m j => x m j + 1 * d m j) i) < f i
            then 1 else 0 := by
      intro n hn
      set c := sanitizeLoss (f_fn (fun m j => x m j + 1 * d m j) i) with hc
      have hy : lsY rpow10 f x d f_fn n false i = f i :: [c] := by
        simp [lsY, hn, hc]
      have hmin : listMin [c] = c := min_eq_left le_top
      have hbet : (linesearch rpow10 vnorm f x d f_fn n false).1 i
          = (lsBetsAll rpow10 n false).getD
              (firstMinIdx (lsY rpow10 f x d f_fn n false i)) 0 := rfl
      have hall : lsBetsAll rpow10 n false = [0, 1] := by
        simp [lsBetsAll, hn]
      by_cases h : c < f i
      · have hnle : ¬ f i ≤ listMin [c] := by
          rw [hmin]; exact not_le.mpr h
        have hidx : firstMinIdx (lsY rpow10 f x d f_fn n false i) = 1 := by
          rw [hy]
          show (if f i ≤ listMin [c] then 0 else firstMinIdx [c] + 1) = 1
          rw [if_neg hnle]
          simp [firstMinIdx, listMin]
        rw [hbet, hall, hidx]
        have hc1 : (if c < f i then (1:ℚ) else 0) = 1 := if_pos h
        rw [hc1]
        rfl
      · have hle : f i ≤ listMin [c] := by
          rw [hmin]; exact le_of_not_lt h
        have hidx : firstMinIdx (lsY rpow10 f x d f_fn n false i) = 0 := by
          rw [hy]
          show (if f i ≤ listMin [c] then 0 else firstMinIdx [c] + 1) = 0
          rw [if_pos hle]
        rw [hbet, hall, hidx]
        have hc0 : (if c < f i then (1:ℚ) else 0) = 0 := if_neg h
        rw [hc0]
        rfl
    exact ⟨key 0 rfl, key 1 rfl⟩

theorem cholEscalate_isSome {M n : ℕ} {Φ : Type}
    (chol : (Fin M → Matrix (Fin n) (Fin n) ℚ) → Option Φ)
    (H : Fin M → Matrix (Fin n) (Fin n) ℚ) :
    ∀ (K : ℕ) (reg : ℚ) (reg_it : ℕ), 0 < reg → 9900000 ≤ 5 ^ K * (5 * reg) →
    ∀ fuel : ℕ, K + 1 ≤ fuel →
    (positive_factorization_cholesky chol H fuel reg reg_it).isSome := by
  intro K
  induction K with
  | zero =>
    intro reg it _ hle fuel hfuel
    obtain ⟨f, rfl⟩ : ∃ f, fuel = f + 1 := ⟨fuel - 1, by omega⟩
    cases hch : chol (addDiag H reg) with
    | some F => simp [positive_factorization_cholesky, hch]
    | none =>
      have habort : 9900000 ≤ 5 * reg := by
        have h1 : (5:ℚ) ^ 0 * (5 * reg) = 5 * reg := by ring
        rw [h1] at hle
        exact hle
      simp [positive_factorization_cholesky, hch, habort]
  | succ K ih =>
    intro reg it hpos hle fuel hfuel
    obtain ⟨f, rfl⟩ : ∃ f, fuel = f + 1 := ⟨fuel - 1, by omega⟩
    cases hch : chol (addDiag H reg) with
    | some F => simp [positive_factorization_cholesky, hch]
    | none =>
      by_cases habort : 9900000 ≤ 5 * reg
      · simp [positive_factorization_cholesky, hch, habort]
      · have hle' : 9900000 ≤ 5 ^ K * (5 * (5 * reg)) := by
          have h1 : (5:ℚ) ^ (K + 1) * (5 * reg) = 5 ^ K * (5 * (5 * reg)) := by
            ring
          rw [h1] at hle
          exact hle
        have hrec := ih (5 * reg) (it + 1) (by positivity) hle' f (by omega)
        simpa [positive_factorization_cholesky, hch, habort] using hrec

theorem exists_escal_bound (reg : ℚ) (h : 0 < reg) :
    ∃ K : ℕ, 9900000 ≤ 5 ^ K * (5 * reg) := by
  obtain ⟨K, hK⟩ :=
    pow_unbounded_of_one_lt (9900000 / (5 * reg)) (by norm_num : (1:ℚ) < 5)
  refine ⟨K, ?_⟩
  have h5 : 0 < 5 * reg := by positivity
  have h2 : (9900000 : ℚ) < 5 ^ K * (5 * reg) := by
    have := (div_lt_iff₀ h5).mp hK
    linarith [this]
  linarith

/-- Claim C1 (amended: the initial shift is positive): the escalation
loop attempts a Cholesky factorisation of `H + reg * I`, multiplies
`reg` by 5 on every failed attempt, and aborts with the fatal
numerical-instability error once the escalated `reg` reaches `0.99e7`;
for every positive initial shift there is a finite bound `N` such that
the loop has decided (success or fatal error) within `N` attempts, for
every Cholesky backend and every Hessian batch. -/
theorem C1_bounded_escalation {M n : ℕ} {Φ : Type}
    (chol : (Fin M → Matrix (Fin n) (Fin n) ℚ) → Option Φ)
    (H : Fin M → Matrix (Fin n) (Fin n) ℚ) (reg0 : ℚ) (h : 0 < reg0) :
    (∀ (fuel : ℕ) (reg : ℚ) (reg_it : ℕ),
        positive_factorization_cholesky chol H (fuel + 1) reg reg_it
          = match chol (addDiag H reg) with
            | some F => some (.ok (F, reg_it, reg))
            | none =>
              if 9900000 ≤ 5 * reg then some (.error .regExhausted)
              else positive_factorization_cholesky chol H fuel (5 * reg) (reg_it + 1))
    ∧ ∃ N : ℕ, ∀ fuel : ℕ, N ≤ fuel →
        (positive_factorization_cholesky chol H fuel reg0 0).isSome := by
  constructor
  · intro fuel reg it
    rfl
  · obtain ⟨K, hK⟩ := exists_escal_bound reg0 h
    exact ⟨K + 1, fun fuel hf => cholEscalate_isSome chol H K reg0 0 h hK fuel hf⟩

/-- Witness for claim C1: at the default initial shift `1e-7` the bound
exists (concrete backend `chol1`, concrete Hessian `[[1]]`). -/
theorem C1_witness :
    (0:ℚ) < 1/10^7
    ∧ ∃ N : ℕ, ∀ fuel : ℕ, N ≤ fuel →
        (positive_factorization_cholesky chol1 Hpos fuel (1/10^7) 0).isSome :=
  ⟨by norm_num, (C1_bounded_escalation chol1 Hpos (1/10^7) (by norm_num)).2⟩

theorem escal_stuck_at_zero :
    ∀ (fuel reg_it : ℕ),
      positive_factorization_cholesky chol1 Hneg fuel 0 reg_it = none := by
  intro fuel
  induction fuel with
  | zero => intro it; rfl
  | succ f ih =>
    intro it
    have hch : chol1 (addDiag Hneg 0) = none := by
      have hfalse : ¬ ∀ i : Fin 1, 0 < (addDiag Hneg 0) i 0 0 := by
        intro hall
        have := hall 0
        norm_num [addDiag, Hneg] at this
      simp [chol1, hfalse]
    have habort : ¬ ((9900000:ℚ) ≤ 5 * 0) := by norm_num
    have hstep : positive_factorization_cholesky chol1 Hneg (f + 1) 0 it
        = positive_factorization_cholesky chol1 Hneg f (5 * 0) (it + 1) := by
      simp [positive_factorization_cholesky, hch, habort]
    rw [hstep]
    have h0 : (5:ℚ) * 0 = 0 := by norm_num
    rw [h0]
    exact ih (it + 1)

/-- Counterexample to claim C1 as stated: with initial shift `reg = 0`
(an input the claim quantifies over) and the pathological Hessian
`[[-1]]`, every attempt fails, `reg * 5` stays `0`, the abort threshold
is never reached, and the loop never finishes — in particular it has
not decided after 1000 attempts, though the claimed geometric
escalation decides within a few dozen: the loop is not bounded for
every input. -/
theorem C1_counterexample :
    escalStuckAtZero
    ∧ positive_factorization_cholesky chol1 Hneg 1000 0 0 = none :=
  ⟨escal_stuck_at_zero, escal_stuck_at_zero 1000 0⟩

theorem lobpcg_H1two_eval (r : ℚ) (hr : 0 ≤ r) :
    positive_factorization_lobpcg eig1 lobZero chol1 H1two r 1
      = some (.ok (addDiag H1two r, 0, r)) := by
  have hch : chol1 (addDiag H1two r) = some (addDiag H1two r) := by
    have hpos2 : ∀ i : Fin 1, 0 < (addDiag H1two r) i 0 0 := by
      intro i
      have he : (addDiag H1two r) i 0 0 = 2 + r := by
        simp [addDiag, H1two]
      rw [he]
      linarith
    rw [chol1, if_pos hpos2]
  have hstep : positive_factorization_cholesky chol1 H1two 1 r 0
      = some (.ok (addDiag H1two r, 0, r)) := by
    simp [positive_factorization_cholesky, hch]
  rw [positive_factorization_lobpcg]
  norm_num
  simp only [eig1, H1two]
  rw [max_eq_right (show (-(2 * 2) : ℚ) ≤ 0 by norm_num), max_eq_right hr]
  exact hstep

/-- Claim C2 (code bug): for tiny (dimension `< 3`) Hessians in a batch
with more than one row, the reshape of the `(M, n, n)` Hessian to
`(n, n)` is size-inconsistent and the regulariser raises instead of
computing the exact-eigenvalue initial shift — here on a batch of two
benign `1 x 1` Hessians `[[2]]`, for every escalation budget.  On the
same Hessian as a single-row batch the intended path goes through: the
minimum eigenvalue `2` is computed exactly, the initial shift is
`max (max (-2 * 2) 0) 1e-7 = 1e-7`, and the factorisation succeeds at
the first attempt with zero escalations. -/
theorem C2_tiny_batched_reshape_bug :
    (∀ fuel : ℕ,
      positive_factorization_lobpcg eig1 lobZero chol1 Hbatch2 (1/10^7) fuel
        = some (.error .reshapeError))
    ∧ positive_factorization_lobpcg eig1 lobZero chol1 H1two (1/10^7) 1
        = some (.ok (addDiag H1two (1/10^7), 0, 1/10^7)) := by
  constructor
  · intro fuel
    norm_num [positive_factorization_lobpcg]
  · exact lobpcg_H1two_eval (1/10^7) (by norm_num)

theorem sqpStep_of_dir_ok {M k : ℕ} {Φ : Type} (kit : TorchKit M k Φ)
    (fns : SqpFns M k) (reg0 : ℚ) (ls_pts_nb : ℕ) (force_step batched : Bool)
    (fuel : ℕ) (s : SqpState M k) (d : Fin M → Fin k → ℚ) (rit : ℕ)
    (hd : sqpDir kit fns reg0 fuel s = some (.ok (d, rit))) :
    sqpStep kit fns reg0 ls_pts_nb force_step batched fuel s
      = some (.ok (sqpStepCore kit fns ls_pts_nb force_step batched s d)) := by
  simp [sqpStep, hd]

theorem sqpStep_ok_elim {M k : ℕ} {Φ : Type} (kit : TorchKit M k Φ)
    (fns : SqpFns M k) (reg0 : ℚ) (ls_pts_nb : ℕ) (force_step batched : Bool)
    (fuel : ℕ) (s sN : SqpState M k) (imprv : ℚ)
    (h : sqpStep kit fns reg0 ls_pts_nb force_step batched fuel s
      = some (.ok (sN, imprv))) :
    ∃ d rit, sqpDir kit fns reg0 fuel s = some (.ok (d, rit))
      ∧ sN = (sqpStepCore kit fns ls_pts_nb force_step batched s d).1
      ∧ imprv = (sqpStepCore kit fns ls_pts_nb force_step batched s d).2 := by
  cases hd : sqpDir kit fns reg0 fuel s with
  | none => simp [sqpStep, hd] at h
  | some r =>
    cases r with
    | error e => simp [sqpStep, hd] at h
    | ok p =>
      obtain ⟨d, rit⟩ := p
      simp only [sqpStep, hd] at h
      have h2 : sqpStepCore kit fns ls_pts_nb force_step batched s d
          = (sN, imprv) := by
        simpa using h
      exact ⟨d, rit, rfl, (congrArg Prod.fst h2).symm, (congrArg Prod.snd h2).symm⟩

theorem bestUpdate_cases {M k : ℕ} (b : Bool) (hb : b = true ∨ M = 1)
    (xN xB : Fin M → Fin k → ℚ) (fB lsB : Fin M → WithTop ℚ) (i : Fin M) :
    (lsB i < fB i ∧ (bestUpdate b xN xB fB lsB).1 i = xN i
        ∧ (bestUpdate b xN xB fB lsB).2 i = lsB i)
    ∨ (¬ lsB i < fB i ∧ (bestUpdate b xN xB fB lsB).1 i = xB i
        ∧ (bestUpdate b xN xB fB lsB).2 i = fB i) := by
  rcases hb with hb | hb
  · subst hb
    by_cases h : lsB i < fB i
    · exact Or.inl ⟨h, by simp [bestUpdate, h], by simp [bestUpdate, h]⟩
    · exact Or.inr ⟨h, by simp [bestUpdate, h], by simp [bestUpdate, h]⟩
  · subst hb
    cases b with
    | true =>
      by_cases h : lsB i < fB i
      · exact Or.inl ⟨h, by simp [bestUpdate, h], by simp [bestUpdate, h]⟩
      · exact Or.inr ⟨h, by simp [bestUpdate, h], by simp [bestUpdate, h]⟩
    | false =>
      have hi : (0 : Fin 1) = i := Subsingleton.elim _ _
      by_cases h : lsB i < fB i
      · have hcond : lsB 0 < fB 0 := by
          rw [hi]; exact h
        exact Or.inl ⟨h, by simp [bestUpdate, hcond],
          by simp [bestUpdate, hcond]⟩
      · have hcond : ¬ lsB 0 < fB 0 := by
          rw [hi]; exact h
        exact Or.inr ⟨h, by simp [bestUpdate, hcond],
          by simp [bestUpdate, hcond]⟩

theorem bestUpdate_snd_min {M k : ℕ} (b : Bool) (hb : b = true ∨ M = 1)
    (xN xB : Fin M → Fin k → ℚ) (fB lsB : Fin M → WithTop ℚ) (i : Fin M) :
    (bestUpdate b xN xB fB lsB).2 i = min (lsB i) (fB i) := by
  rcases bestUpdate_cases b hb xN xB fB lsB i with ⟨h, _, h2⟩ | ⟨h, _, h2⟩
  · rw [h2]
    exact (min_eq_left (le_of_lt h)).symm
  · rw [h2]
    exact (min_eq_right (le_of_not_lt h)).symm

theorem sqpStepCore_fbest {M k : ℕ} {Φ : Type} (kit : TorchKit M k Φ)
    (fns : SqpFns M k) (ls_pts_nb : ℕ) (force_step batched : Bool)
    (hb : batched = true ∨ M = 1) (s : SqpState M k)
    (d : Fin M → Fin k → ℚ) (i : Fin M) :
    (sqpStepCore kit fns ls_pts_nb force_step batched s d).1.f_best i
      = min (((sqpStepCore kit fns ls_pts_nb force_step batched s d).1.f_hist.headD
          (fun _ => ⊤)) i) (s.f_best i) :=
  bestUpdate_snd_min batched hb _ s.x_best s.f_best _ i

theorem sqpStep_fbest_le {M k : ℕ} {Φ : Type} (kit : TorchKit M k Φ)
    (fns : SqpFns M k) (reg0 : ℚ) (ls_pts_nb : ℕ) (force_step batched : Bool)
    (fuel : ℕ) (hb : batched = true ∨ M = 1) (s sN : SqpState M k) (imprv : ℚ)
    (h : sqpStep kit fns reg0 ls_pts_nb force_step batched fuel s
      = some (.ok (sN, imprv))) (i : Fin M) :
    sN.f_best i ≤ s.f_best i := by
  obtain ⟨d, rit, _, hsN, _⟩ :=
    sqpStep_ok_elim kit fns reg0 ls_pts_nb force_step batched fuel s sN imprv h
  rw [hsN]
  calc (sqpStepCore kit fns ls_pts_nb force_step batched s d).1.f_best i
      = min (((sqpStepCore kit fns ls_pts_nb force_step batched s d).1.f_hist.headD
          (fun _ => ⊤)) i) (s.f_best i) :=
        sqpStepCore_fbest kit fns ls_pts_nb force_step batched hb s d i
    _ ≤ s.f_best i := min_le_right _ _

theorem sqpLoop_zero {M k : ℕ} {Φ : Type} (kit : TorchKit M k Φ)
    (fns : SqpFns M k) (reg0 : ℚ) (ls_pts_nb : ℕ) (force_step batched : Bool)
    (fuel : ℕ) (s : SqpState M k) :
    sqpLoop kit fns reg0 ls_pts_nb force_step batched fuel 0 s
      = some (.ok s) := rfl

theorem sqpLoop_succ {M k : ℕ} {Φ : Type} (kit : TorchKit M k Φ)
    (fns : SqpFns M k) (reg0 : ℚ) (ls_pts_nb : ℕ) (force_step batched : Bool)
    (fuel n : ℕ) (s sN : SqpState M k) (imprv : ℚ)
    (h : sqpStep kit fns reg0 ls_pts_nb force_step batched fuel s
      = some (.ok (sN, imprv))) :
    sqpLoop kit fns reg0 ls_pts_nb force_step batched fuel (n + 1) s
      = if imprv < 1/10^9 then some (.ok sN)
        else sqpLoop kit fns reg0 ls_pts_nb force_step batched fuel n sN := by
  simp [sqpLoop, h]

theorem sqpLoop_fbest_le {M k : ℕ} {Φ : Type} (kit : TorchKit M k Φ)
    (fns : SqpFns M k) (reg0 : ℚ) (ls_pts_nb : ℕ) (force_step batched : Bool)
    (fuel : ℕ) (hb : batched = true ∨ M = 1) :
    ∀ (n : ℕ) (s sT : SqpState M k),
      sqpLoop kit fns reg0 ls_pts_nb force_step batched fuel n s
        = some (.ok sT) →
      ∀ i, sT.f_best i ≤ s.f_best i := by
  intro n
  induction n with
  | zero =>
    intro s sT h i
    have hs : s = sT := by simpa [sqpLoop] using h
    rw [hs]
  | succ n ih =>
    intro s sT h i
    cases hstep : sqpStep kit fns reg0 ls_pts_nb force_step batched fuel s with
    | none => simp [sqpLoop, hstep] at h
    | some r =>
      cases r with
      | error e => simp [sqpLoop, hstep] at h
      | ok p =>
        obtain ⟨sN, imprv⟩ := p
        have hle : sN.f_best i ≤ s.f_best i :=
          sqpStep_fbest_le kit fns reg0 ls_pts_nb force_step batched fuel hb
            s sN imprv hstep i
        rw [sqpLoop_succ kit fns reg0 ls_pts_nb force_step batched fuel n
          s sN imprv hstep] at h
        by_cases hc : imprv < 1/10^9
        · rw [if_pos hc] at h
          have hT : sN = sT := by simpa using h
          rw [← hT]
          exact hle
        · rw [if_neg hc] at h
          exact le_trans (ih sN sT h i) hle

theorem minimize_sqp_of_loop {M k : ℕ} {Φ : Type} (kit : TorchKit M k Φ)
    (fns : SqpFns M k) (reg0 : ℚ) (max_it ls_pts_nb : ℕ)
    (force_step batched full_output : Bool) (fuel : ℕ)
    (x : Fin M → Fin k → ℚ) (s : SqpState M k)
    (h : sqpLoop kit fns reg0 ls_pts_nb force_step batched fuel max_it
      (sqpInit fns x) = some (.ok s)) :
    minimize_sqp kit fns [x] reg0 max_it ls_pts_nb force_step batched
        full_output fuel
      = some (.ok (s.x_best,
          if full_output then some (s.x_hist.reverse ++ [s.x_best])
          else none)) := by
  simp [minimize_sqp, h]

theorem sqpInit_inv {M k : ℕ} (fns : SqpFns M k) (x : Fin M → Fin k → ℚ) :
    SqpInv (sqpInit fns x) := by
  constructor
  · rfl
  · intro i
    refine ⟨0, by simp [sqpInit], rfl, rfl, ?_⟩
    show sanitizeLoss (fns.f_fn x i)
        = listMin (List.map (fun fv => fv i)
            [fun j => sanitizeLoss (fns.f_fn x j)])
    rw [List.map_cons, List.map_nil, listMin_cons]
    exact (min_eq_left le_top).symm

theorem consState_inv {M k : ℕ} (b : Bool) (hb : b = true ∨ M = 1)
    (s : SqpState M k) (hs : SqpInv s) (xN : Fin M → Fin k → ℚ)
    (lsF : Fin M → WithTop ℚ) :
    SqpInv ⟨xN, (bestUpdate b xN s.x_best s.f_best lsF).1,
      (bestUpdate b xN s.x_best s.f_best lsF).2,
      lsF :: s.f_hist, xN :: s.x_hist⟩ := by
  obtain ⟨hlen, hrow⟩ := hs
  constructor
  · show (lsF :: s.f_hist).length = (xN :: s.x_hist).length
    simp [hlen]
  · intro i
    dsimp only
    obtain ⟨t, ht, hx, hf, hmin⟩ := hrow i
    have hminNew : listMin (List.map (fun fv => fv i) (lsF :: s.f_hist))
        = min (lsF i) (s.f_best i) := by
      rw [List.map_cons, listMin_cons, ← hmin]
    rcases bestUpdate_cases b hb xN s.x_best s.f_best lsF i with
      ⟨h, h1, h2⟩ | ⟨h, h1, h2⟩
    · refine ⟨0, by simp, ?_, ?_, ?_⟩
      · rw [h1]; rfl
      · rw [h2]; rfl
      · rw [h2, hminNew]
        exact (min_eq_left (le_of_lt h)).symm
    · refine ⟨t + 1, by simpa using Nat.succ_lt_succ ht, ?_, ?_, ?_⟩
      · rw [h1, List.getD_cons_succ]
        exact hx
      · rw [h2, List.getD_cons_succ]
        exact hf
      · rw [h2, hminNew]
        exact (min_eq_right (le_of_not_lt h)).symm

theorem sqpStepCore_inv {M k : ℕ} {Φ : Type} (kit : TorchKit M k Φ)
    (fns : SqpFns M k) (ls_pts_nb : ℕ) (force_step batched : Bool)
    (hb : batched = true ∨ M = 1) (s : SqpState M k)
    (d : Fin M → Fin k → ℚ) (hs : SqpInv s) :
    SqpInv (sqpStepCore kit fns ls_pts_nb force_step batched s d).1 :=
  consState_inv batched hb s hs _ _

theorem sqpLoop_inv {M k : ℕ} {Φ : Type} (kit : TorchKit M k Φ)
    (fns : SqpFns M k) (reg0 : ℚ) (ls_pts_nb : ℕ) (force_step batched : Bool)
    (fuel : ℕ) (hb : batched = true ∨ M = 1) :
    ∀ (n : ℕ) (s sT : SqpState M k), SqpInv s →
      sqpLoop kit fns reg0 ls_pts_nb force_step batched fuel n s
        = some (.ok sT) →
      SqpInv sT := by
  intro n
  induction n with
  | zero =>
    intro s sT hs h
    have heq : s = sT := by simpa [sqpLoop] using h
    rwa [← heq]
  | succ n ih =>
    intro s sT hs h
    cases hstep : sqpStep kit fns reg0 ls_pts_nb force_step batched fuel s with
    | none => simp [sqpLoop, hstep] at h
    | some r =>
      cases r with
      | error e => simp [sqpLoop, hstep] at h
      | ok p =>
        obtain ⟨sN, imprv⟩ := p
        obtain ⟨d, rit, hd, hsN, _⟩ :=
          sqpStep_ok_elim kit fns reg0 ls_pts_nb force_step batched fuel
            s sN imprv hstep
        have hsNinv : SqpInv sN := by
          rw [hsN]
          exact sqpStepCore_inv kit fns ls_pts_nb force_step batched hb s d hs
        rw [sqpLoop_succ kit fns reg0 ls_pts_nb force_step batched fuel n
          s sN imprv hstep] at h
        by_cases hc : imprv < 1/10^9
        · rw [if_pos hc] at h
          have heq : sN = sT := by simpa using h
          rwa [← heq]
        · rw [if_neg hc] at h
          exact ih sN sT hsNinv h

/-- Claim C5: across every run, every iteration, and every batch row,
the tracked best loss never increases: the per-row update keeps
whichever of the new line-search loss and the previous best is lower,
independently per row (the unbatched branch coincides at batch size
one), each accepted step leaves `f_best` at the minimum of the new
candidate loss and the previous best, and along the loop the final best
loss is at most the initial one. -/
theorem C5_fbest_monotone :
    (∀ (M k : ℕ) (xN xB : Fin M → Fin k → ℚ) (fB lsB : Fin M → WithTop ℚ)
        (i : Fin M),
        (bestUpdate true xN xB fB lsB).2 i = min (lsB i) (fB i))
    ∧ (∀ (k : ℕ) (xN xB : Fin 1 → Fin k → ℚ) (fB lsB : Fin 1 → WithTop ℚ)
        (i : Fin 1),
        (bestUpdate false xN xB fB lsB).2 i = min (lsB i) (fB i))
    ∧ (∀ (M k : ℕ) (Φ : Type) (kit : TorchKit M k Φ) (fns : SqpFns M k)
        (reg0 : ℚ) (lsn : ℕ) (fstp : Bool) (fuel : ℕ) (s sN : SqpState M k)
        (imprv : ℚ),
        sqpStep kit fns reg0 lsn fstp true fuel s = some (.ok (sN, imprv)) →
        ∀ i, sN.f_best i
            = min ((sN.f_hist.headD (fun _ => ⊤)) i) (s.f_best i)
          ∧ sN.f_best i ≤ s.f_best i)
    ∧ (∀ (M k : ℕ) (Φ : Type) (kit : TorchKit M k Φ) (fns : SqpFns M k)
        (reg0 : ℚ) (lsn : ℕ) (fstp : Bool) (fuel n : ℕ)
        (s sT : SqpState M k),
        sqpLoop kit fns reg0 lsn fstp true fuel n s = some (.ok sT) →
        ∀ i, sT.f_best i ≤ s.f_best i) := by
  refine ⟨?_, ?_, ?_, ?_⟩
  · intro M k xN xB fB lsB i
    exact bestUpdate_snd_min true (Or.inl rfl) xN xB fB lsB i
  · intro k xN xB fB lsB i
    exact bestUpdate_snd_min false (Or.inr rfl) xN xB fB lsB i
  · intro M k Φ kit fns reg0 lsn fstp fuel s sN imprv h i
    obtain ⟨d, rit, hd, hsN, _⟩ :=
      sqpStep_ok_elim kit fns reg0 lsn fstp true fuel s sN imprv h
    constructor
    · rw [hsN]
      exact sqpStepCore_fbest kit fns lsn fstp true (Or.inl rfl) s d i
    · exact sqpStep_fbest_le kit fns reg0 lsn fstp true fuel (Or.inl rfl)
        s sN imprv h i
  · intro M k Φ kit fns reg0 lsn fstp fuel n s sT h i
    exact sqpLoop_fbest_le kit fns reg0 lsn fstp true fuel (Or.inl rfl)
      n s sT h i

/-- Claim C6: every iteration computes the convergence indicator as the
batch-wide mean of the selected step multiplier times the direction
norm (a single scalar also in batched mode), the loop stops early
exactly when that indicator is strictly below `1e-9`, otherwise it runs
until the iteration budget is exhausted, and both outcomes are success
paths whose result is built from the tracked best point. -/
theorem C6_convergence_indicator :
    (∀ (M k : ℕ) (Φ : Type) (kit : TorchKit M k Φ) (fns : SqpFns M k)
        (lsn : ℕ) (fstp b : Bool) (s : SqpState M k) (d : Fin M → Fin k → ℚ),
        (sqpStepCore kit fns lsn fstp b s d).2
          = (∑ i, (linesearch kit.rpow10 kit.vnorm
                (s.f_hist.headD (fun _ => ⊤)) s.x d fns.f_fn lsn fstp).1 i
              * (linesearch kit.rpow10 kit.vnorm
                (s.f_hist.headD (fun _ => ⊤)) s.x d fns.f_fn lsn fstp).2.d_norm i)
            / (M : ℚ))
    ∧ (∀ (M k : ℕ) (Φ : Type) (kit : TorchKit M k Φ) (fns : SqpFns M k)
        (reg0 : ℚ) (lsn : ℕ) (fstp b : Bool) (fuel n : ℕ)
        (s sN : SqpState M k) (imprv : ℚ),
        sqpStep kit fns reg0 lsn fstp b fuel s = some (.ok (sN, imprv)) →
        sqpLoop kit fns reg0 lsn fstp b fuel (n + 1) s
          = if imprv < 1/10^9 then some (.ok sN)
            else sqpLoop kit fns reg0 lsn fstp b fuel n sN)
    ∧ (∀ (M k : ℕ) (Φ : Type) (kit : TorchKit M k Φ) (fns : SqpFns M k)
        (reg0 : ℚ) (lsn : ℕ) (fstp b : Bool) (fuel : ℕ) (s : SqpState M k),
        sqpLoop kit fns reg0 lsn fstp b fuel 0 s = some (.ok s))
    ∧ (∀ (M k : ℕ) (Φ : Type) (kit : TorchKit M k Φ) (fns : SqpFns M k)
        (reg0 : ℚ) (max_it lsn : ℕ) (fstp b fo : Bool) (fuel : ℕ)
        (x : Fin M → Fin k → ℚ) (s : SqpState M k),
        sqpLoop kit fns reg0 lsn fstp b fuel max_it (sqpInit fns x)
          = some (.ok s) →
        minimize_sqp kit fns [x] reg0 max_it lsn fstp b fo fuel
          = some (.ok (s.x_best,
              if fo then some (s.x_hist.reverse ++ [s.x_best]) else none))) := by
  refine ⟨?_, ?_, ?_, ?_⟩
  · intro M k Φ kit fns lsn fstp b s d
    rfl
  · intro M k Φ kit fns reg0 lsn fstp b fuel n s sN imprv h
    exact sqpLoop_succ kit fns reg0 lsn fstp b fuel n s sN imprv h
  · intro M k Φ kit fns reg0 lsn fstp b fuel s
    rfl
  · intro M k Φ kit fns reg0 max_it lsn fstp b fo fuel x s h
    exact minimize_sqp_of_loop kit fns reg0 max_it lsn fstp b fo fuel x s h

/-- Claim C8: a NaN in the gradient (checked first) or in the Hessian
at the current iterate aborts the run immediately with the
corresponding fatal error — the gradient and Hessian errors are
distinct constructors identifying the failing quantity — and the error
outcome carries no result state. -/
theorem C8_nan_is_fatal :
    (∀ (M k : ℕ) (Φ : Type) (kit : TorchKit M k Φ) (fns : SqpFns M k)
        (reg0 : ℚ) (fuel : ℕ) (s : SqpState M k),
        vecHasNaN (fns.g_fn s.x) →
        sqpDir kit fns reg0 fuel s = some (.error .gradNaN))
    ∧ (∀ (M k : ℕ) (Φ : Type) (kit : TorchKit M k Φ) (fns : SqpFns M k)
        (reg0 : ℚ) (fuel : ℕ) (s : SqpState M k),
        ¬ vecHasNaN (fns.g_fn s.x) → matHasNaN (fns.h_fn s.x) →
        sqpDir kit fns reg0 fuel s = some (.error .hessNaN))
    ∧ (∀ (M k : ℕ) (Φ : Type) (kit : TorchKit M k Φ) (fns : SqpFns M k)
        (reg0 : ℚ) (lsn : ℕ) (fstp b : Bool) (fuel n : ℕ)
        (s : SqpState M k),
        vecHasNaN (fns.g_fn s.x) →
        sqpLoop kit fns reg0 lsn fstp b fuel (n + 1) s
          = some (.error .gradNaN))
    ∧ (∀ (M k : ℕ) (Φ : Type) (kit : TorchKit M k Φ) (fns : SqpFns M k)
        (reg0 : ℚ) (lsn : ℕ) (fstp b fo : Bool) (fuel : ℕ)
        (x : Fin M → Fin k → ℚ) (mi : ℕ),
        vecHasNaN (fns.g_fn x) →
        minimize_sqp kit fns [x] reg0 (mi + 1) lsn fstp b fo fuel
          = some (.error .gradNaN)) := by
  refine ⟨?_, ?_, ?_, ?_⟩
  · intro M k Φ kit fns reg0 fuel s h
    simp [sqpDir, h]
  · intro M k Φ kit fns reg0 fuel s h1 h2
    simp [sqpDir, h1, h2]
  · intro M k Φ kit fns reg0 lsn fstp b fuel n s h
    have hdir : sqpDir kit fns reg0 fuel s = some (.error .gradNaN) := by
      simp [sqpDir, h]
    simp [sqpLoop, sqpStep, hdir]
  · intro M k Φ kit fns reg0 lsn fstp b fo fuel x mi h
    have hx : vecHasNaN (fns.g_fn (sqpInit fns x).x) := h
    have hdir : sqpDir kit fns reg0 fuel (sqpInit fns x)
        = some (.error .gradNaN) := by
      simp [sqpDir, hx]
    have hloop : sqpLoop kit fns reg0 lsn fstp b fuel (mi + 1) (sqpInit fns x)
        = some (.error .gradNaN) := by
      simp [sqpLoop, sqpStep, hdir]
    simp [minimize_sqp, hloop]

/-- Claim C9: invoked with more than one optimisation variable, the
driver raises the input error, and it does so before any iteration
begins: the outcome is the same for arbitrary torch backends, caller
functions and configuration, so no caller-supplied function is
consulted and no iterate state matters. -/
theorem C9_multi_variable_rejected :
    ∀ (M k : ℕ) (Φ Ψ : Type) (kit : TorchKit M k Φ) (kit2 : TorchKit M k Ψ)
      (fns fns2 : SqpFns M k) (a1 a2 : Fin M → Fin k → ℚ)
      (rest : List (Fin M → Fin k → ℚ)) (reg0 reg2 : ℚ)
      (mi mi2 lsn lsn2 : ℕ) (fs fs2 bt bt2 fo fo2 : Bool) (fuel fuel2 : ℕ),
      minimize_sqp kit fns (a1 :: a2 :: rest) reg0 mi lsn fs bt fo fuel
        = some (.error .inputError)
      ∧ minimize_sqp kit fns (a1 :: a2 :: rest) reg0 mi lsn fs bt fo fuel
        = minimize_sqp kit2 fns2 (a1 :: a2 :: rest) reg2 mi2 lsn2 fs2 bt2
            fo2 fuel2 := by
  intro M k Φ Ψ kit kit2 fns fns2 a1 a2 rest reg0 reg2 mi mi2 lsn lsn2
    fs fs2 bt bt2 fo fo2 fuel fuel2
  have hlen : 1 < (a1 :: a2 :: rest).length := by
    simp
  constructor
  · simp [minimize_sqp, hlen]
  · simp [minimize_sqp, hlen]

/-- Claim C7 (amended: the returned history carries one extra final
copy of the best point): every normally terminating run returns the
per-row best point ever observed — for each row a recorded iterate
snapshot whose recorded loss attains the minimum of all recorded
losses, not necessarily the final iterate — and with `full_output` it
additionally returns the ordered iterate snapshots (not loss
snapshots) followed by a final copy of the returned best point. -/
theorem C7_returns_best_and_history (M k : ℕ) (Φ : Type)
    (kit : TorchKit M k Φ) (fns : SqpFns M k) (reg0 : ℚ)
    (max_it lsn : ℕ) (fstp b : Bool) (fuel : ℕ)
    (hb : b = true ∨ M = 1) (x : Fin M → Fin k → ℚ) (s : SqpState M k)
    (h : sqpLoop kit fns reg0 lsn fstp b fuel max_it (sqpInit fns x)
      = some (.ok s)) :
    minimize_sqp kit fns [x] reg0 max_it lsn fstp b false fuel
      = some (.ok (s.x_best, none))
    ∧ minimize_sqp kit fns [x] reg0 max_it lsn fstp b true fuel
      = some (.ok (s.x_best, some (s.x_hist.reverse ++ [s.x_best])))
    ∧ (∀ i, ∃ t, t < s.x_hist.length
        ∧ s.x_best i = (s.x_hist.getD t (fun _ _ => 0)) i
        ∧ s.f_best i = (s.f_hist.getD t (fun _ => ⊤)) i
        ∧ s.f_best i = listMin (s.f_hist.map (fun fv => fv i))) := by
  refine ⟨?_, ?_, ?_⟩
  · simpa using
      minimize_sqp_of_loop kit fns reg0 max_it lsn fstp b false fuel x s h
  · simpa using
      minimize_sqp_of_loop kit fns reg0 max_it lsn fstp b true fuel x s h
  · intro i
    obtain ⟨t, ht, hx1, hf1, hm1⟩ :=
      (sqpLoop_inv kit fns reg0 lsn fstp b fuel hb max_it (sqpInit fns x) s
        (sqpInit_inv fns x) h).2 i
    exact ⟨t, ht, hx1, hf1, hm1⟩

/-- Counterexample to claim C7 as stated: a zero-iteration run records
the single iterate snapshot `[x0]`, yet the full-output history
returned is `[x0, x0]` — the snapshot sequence followed by an extra
copy of the returned best point, not the snapshot sequence itself. -/
theorem C7_counterexample :
    minimize_sqp kitC fnsC [x0W] (1/10^7) 0 5 false true true 1
      = some (.ok (x0W, some [x0W, x0W]))
    ∧ (sqpInit fnsC x0W).x_hist = [x0W]
    ∧ ([x0W, x0W] : List (Fin 1 → Fin 1 → ℚ)) ≠ [x0W] := by
  refine ⟨?_, rfl, by simp⟩
  have h0 : sqpLoop kitC fnsC (1/10^7) 5 false true 1 0 (sqpInit fnsC x0W)
      = some (.ok (sqpInit fnsC x0W)) := rfl
  have h := minimize_sqp_of_loop kitC fnsC (1/10^7) 0 5 false true true 1
    x0W (sqpInit fnsC x0W) h0
  simpa using h

theorem sqpInit_fnsC : sqpInit fnsC x0W = s0W := rfl

theorem lsBets_rpow10c_five :
    lsBets rpow10c 5 = [1/10, 79/250, 1, 79/25, 10] := by
  have h5 : linspace (-1) 1 5 = [-1, -1/2, 0, 1/2, 1] := by
    norm_num [linspace, List.range_succ]
  norm_num [lsBets, h5, rpow10c]

theorem lsY_W (i : Fin 1) :
    lsY rpow10c zeroLossW x0W dzeroW fnsC.f_fn 5 false i
      = [((0:ℚ) : WithTop ℚ), ((0:ℚ) : WithTop ℚ), ((0:ℚ) : WithTop ℚ),
         ((0:ℚ) : WithTop ℚ), ((0:ℚ) : WithTop ℚ), ((0:ℚ) : WithTop ℚ)] := by
  simp [lsY, lsBets_rpow10c_five, fnsC, sanitizeLoss, zeroLossW]

theorem linesearch_W_bet (i : Fin 1) :
    (linesearch rpow10c vnormAbs zeroLossW x0W dzeroW fnsC.f_fn 5 false).1 i
      = 0 := by
  show (lsBetsAll rpow10c 5 false).getD
      (firstMinIdx (lsY rpow10c zeroLossW x0W dzeroW fnsC.f_fn 5 false i)) 0
    = 0
  rw [lsY_W i]
  rw [show firstMinIdx [((0:ℚ) : WithTop ℚ), ((0:ℚ) : WithTop ℚ),
      ((0:ℚ) : WithTop ℚ), ((0:ℚ) : WithTop ℚ), ((0:ℚ) : WithTop ℚ),
      ((0:ℚ) : WithTop ℚ)] = 0 from by decide]
  rfl

theorem linesearch_W_fb (i : Fin 1) :
    (linesearch rpow10c vnormAbs zeroLossW x0W dzeroW fnsC.f_fn 5
      false).2.f_best i = ((0:ℚ) : WithTop ℚ) := by
  show (lsY rpow10c zeroLossW x0W dzeroW fnsC.f_fn 5 false i).getD
      (firstMinIdx (lsY rpow10c zeroLossW x0W dzeroW fnsC.f_fn 5 false i)) ⊤
    = ((0:ℚ) : WithTop ℚ)
  rw [lsY_W i]
  rw [show firstMinIdx [((0:ℚ) : WithTop ℚ), ((0:ℚ) : WithTop ℚ),
      ((0:ℚ) : WithTop ℚ), ((0:ℚ) : WithTop ℚ), ((0:ℚ) : WithTop ℚ),
      ((0:ℚ) : WithTop ℚ)] = 0 from by decide]
  rfl

theorem linesearch_W_dn (i : Fin 1) :
    (linesearch rpow10c vnormAbs zeroLossW x0W dzeroW fnsC.f_fn 5
      false).2.d_norm i = 0 := by
  show vnormAbs (dzeroW i) = 0
  simp [vnormAbs, dzeroW]

theorem sqpDir_W : sqpDir kitC fnsC (1/10^7) 1 s0W = some (.ok (dzeroW, 0)) := by
  have hg : ¬ vecHasNaN (fnsC.g_fn s0W.x) := by
    simp [vecHasNaN, fnsC]
  have hH : ¬ matHasNaN (fnsC.h_fn s0W.x) := by
    simp [matHasNaN, fnsC]
  have hHeq : (fun i a b => deNaN (fnsC.h_fn s0W.x i a b)) = H1two := rfl
  have hk1 : kitC.eigMinReal = eig1 := rfl
  have hk2 : kitC.lobpcgMin = lobZero := rfl
  have hk3 : kitC.chol = chol1 := rfl
  rw [sqpDir, if_neg hg, if_neg hH, hHeq, hk1, hk2, hk3,
    lobpcg_H1two_eval (1/10^7) (by norm_num)]
  show (some (Except.ok (kitC.chol_solve (addDiag H1two (1/10^7))
        (fun i j => -(deNaN (fnsC.g_fn s0W.x i j))), 0))
      : Option (Except SqpErr ((Fin 1 → Fin 1 → ℚ) × ℕ)))
    = some (Except.ok (dzeroW, 0))
  have hsolve : kitC.chol_solve (addDiag H1two (1/10^7))
      (fun i j => -(deNaN (fnsC.g_fn s0W.x i j))) = dzeroW := by
    funext i j
    simp [kitC, fnsC, deNaN, dzeroW]
  rw [hsolve]

theorem sqpStepCore_W :
    sqpStepCore kitC fnsC 5 false true s0W dzeroW = (sW1, 0) := by
  have hfb : (linesearch rpow10c vnormAbs zeroLossW x0W dzeroW fnsC.f_fn 5
      false).2.f_best = zeroLossW := by
    funext i
    rw [linesearch_W_fb i]
    rfl
  have hxN : (fun i j => x0W i j
      + (linesearch rpow10c vnormAbs zeroLossW x0W dzeroW fnsC.f_fn 5
          false).1 i * dzeroW i j) = x0W := by
    funext i j
    rw [linesearch_W_bet i]
    simp [x0W, dzeroW]
  have hbu : bestUpdate true x0W x0W zeroLossW zeroLossW = (x0W, zeroLossW) := by
    simp [bestUpdate, lt_self_iff_false]
  have himprv : (∑ i, (linesearch rpow10c vnormAbs zeroLossW x0W dzeroW
        fnsC.f_fn 5 false).1 i
      * (linesearch rpow10c vnormAbs zeroLossW x0W dzeroW fnsC.f_fn 5
        false).2.d_norm i) / ((1:ℕ) : ℚ) = 0 := by
    have hz : ∀ i : Fin 1, (linesearch rpow10c vnormAbs zeroLossW x0W dzeroW
        fnsC.f_fn 5 false).1 i
        * (linesearch rpow10c vnormAbs zeroLossW x0W dzeroW fnsC.f_fn 5
          false).2.d_norm i = 0 := by
      intro i
      rw [linesearch_W_bet i]
      exact zero_mul _
    rw [Finset.sum_congr rfl (fun i _ => hz i)]
    simp
  show ((⟨fun i j => x0W i j
        + (linesearch rpow10c vnormAbs zeroLossW x0W dzeroW fnsC.f_fn 5
            false).1 i * dzeroW i j,
      (bestUpdate true (fun i j => x0W i j
        + (linesearch rpow10c vnormAbs zeroLossW x0W dzeroW fnsC.f_fn 5
            false).1 i * dzeroW i j) x0W zeroLossW
        (linesearch rpow10c vnormAbs zeroLossW x0W dzeroW fnsC.f_fn 5
          false).2.f_best).1,
      (bestUpdate true (fun i j => x0W i j
        + (linesearch rpow10c vnormAbs zeroLossW x0W dzeroW fnsC.f_fn 5
            false).1 i * dzeroW i j) x0W zeroLossW
        (linesearch rpow10c vnormAbs zeroLossW x0W dzeroW fnsC.f_fn 5
          false).2.f_best).2,
      (linesearch rpow10c vnormAbs zeroLossW x0W dzeroW fnsC.f_fn 5
        false).2.f_best :: [zeroLossW],
      (fun i j => x0W i j
        + (linesearch rpow10c vnormAbs zeroLossW x0W dzeroW fnsC.f_fn 5
            false).1 i * dzeroW i j) :: [x0W]⟩ : SqpState 1 1),
      (∑ i, (linesearch rpow10c vnormAbs zeroLossW x0W dzeroW fnsC.f_fn 5
          false).1 i
        * (linesearch rpow10c vnormAbs zeroLossW x0W dzeroW fnsC.f_fn 5
          false).2.d_norm i) / ((1:ℕ) : ℚ)) = (sW1, 0)
  rw [hfb, hxN, hbu, himprv]
  rfl

theorem sqpStep_W :
    sqpStep kitC fnsC (1/10^7) 5 false true 1 s0W = some (.ok (sW1, 0)) := by
  rw [sqpStep_of_dir_ok kitC fnsC (1/10^7) 5 false true 1 s0W dzeroW 0
    sqpDir_W, sqpStepCore_W]

theorem sqpLoop_W :
    sqpLoop kitC fnsC (1/10^7) 5 false true 1 1 s0W = some (.ok sW1) := by
  rw [sqpLoop_succ kitC fnsC (1/10^7) 5 false true 1 0 s0W sW1 0 sqpStep_W,
    if_pos (by norm_num : (0:ℚ) < 1/10^9)]

/-- Witness for claim C5: along a concrete one-iteration batched run
the tracked best loss does not increase. -/
theorem C5_witness : sW1.f_best 0 ≤ s0W.f_best 0 :=
  C5_fbest_monotone.2.2.2 1 1 (Fin 1 → Matrix (Fin 1) (Fin 1) ℚ) kitC fnsC
    (1/10^7) 5 false 1 1 s0W sW1 sqpLoop_W 0

/-- Witness for claim C6: the concrete one-iteration run terminates by
the convergence test and returns its tracked best point. -/
theorem C6_witness :
    minimize_sqp kitC fnsC [x0W] (1/10^7) 1 5 false true false 1
      = some (.ok (sW1.x_best, none)) := by
  have h := C6_convergence_indicator.2.2.2 1 1
    (Fin 1 → Matrix (Fin 1) (Fin 1) ℚ) kitC fnsC (1/10^7) 1 5 false true
    false 1 x0W sW1 sqpLoop_W
  simpa using h

/-- Witness for claim C7: the concrete one-iteration run returns the
tracked best point together with the snapshot history and the appended
final copy of the best point. -/
theorem C7_witness :
    minimize_sqp kitC fnsC [x0W] (1/10^7) 1 5 false true true 1
      = some (.ok (sW1.x_best, some (sW1.x_hist.reverse ++ [sW1.x_best]))) :=
  (C7_returns_best_and_history 1 1 (Fin 1 → Matrix (Fin 1) (Fin 1) ℚ) kitC
    fnsC (1/10^7) 1 5 false true 1 (Or.inl rfl) x0W sW1 sqpLoop_W).2.1

/-- Witness for claim C8: a gradient evaluator returning NaN makes the
concrete run abort fatally with the gradient error. -/
theorem C8_witness :
    minimize_sqp kitC fnsNaN [x0W] (1/10^7) 1 5 false true false 1
      = some (.error .gradNaN) :=
  C8_nan_is_fatal.2.2.2 1 1 (Fin 1 → Matrix (Fin 1) (Fin 1) ℚ) kitC fnsNaN
    (1/10^7) 5 false true false 1 x0W 0 ⟨0, 0, rfl⟩
